import Mathlib

/-
Verification of the retrowin32 execution core: guest-memory allocators
(Arena, Heap), the shims call bridge (scratch code buffer, stub emission,
native-to-guest call frames), and the DLL import resolver.

The definitions below are a shallow embedding of the Rust sources
src/win32/src/winapi/alloc.rs, src/win32/src/shims_raw.rs and
src/win32/src/winapi/kernel32/dll.rs.  Guest memory is modelled as a
byte-addressable total function Nat to Nat; u32 arithmetic is modelled on
Nat with explicit reduction mod 2^32 wherever the source performs 32-bit
(wrapping) machine arithmetic.  Rust panics are modelled as Option.none;
loops whose termination depends on heap-resident data take an explicit
fuel argument and return none on exhaustion.
-/

namespace Retrowin32

/-! ### Guest memory: byte-addressable, 32-bit accessors (x86 Mem) -/

/-- Guest memory: total map from byte address to byte value. -/
abbrev Mem := Nat → Nat

/-- Store one byte. -/
def mset8 (m : Mem) (a v : Nat) : Mem :=
  fun x => if x = a then v % 256 else m x

/-- Load one byte (masked to 8 bits). -/
def mget8 (m : Mem) (a : Nat) : Nat := m a % 256

/-- mem.get::<u32>(addr): little-endian 32-bit load. -/
def get32 (m : Mem) (a : Nat) : Nat :=
  mget8 m a + 256 * mget8 m (a + 1) + 65536 * mget8 m (a + 2) +
    16777216 * mget8 m (a + 3)

/-- mem.put::<u32>(addr, v): little-endian 32-bit store. -/
def put32 (m : Mem) (a v : Nat) : Mem :=
  mset8 (mset8 (mset8 (mset8 m a v) (a + 1) (v / 256)) (a + 2) (v / 65536))
    (a + 3) (v / 16777216)

/-- u32 wrapping addition. -/
def add32 (a b : Nat) : Nat := (a + b) % 4294967296

/-- u32 wrapping subtraction (for operands below 2^32). -/
def sub32 (a b : Nat) : Nat := (a + 4294967296 - b) % 4294967296

/-- fn align32(n: u32) = (n + 3) & !3, on u32.
For m = (n+3) mod 2^32 < 2^32, m & !3 = m - m % 4. -/
def align32 (n : Nat) : Nat :=
  ((n + 3) % 4294967296) - ((n + 3) % 4294967296) % 4

/-- The spec's ideal (non-wrapping) "pad up to a 4-byte boundary". -/
def pad4 (n : Nat) : Nat := (n + 3) / 4 * 4

/-! ### Arena allocator (alloc.rs, impl Alloc for Arena) -/

/-- ArenaInfo: managed range plus bump cursor. -/
structure ArenaInfo where
  addr : Nat
  size : Nat
  next : Nat
  deriving DecidableEq, Repr

/-- Arena::alloc: pad, bounds-check, write the 4-byte header (original
size), bump the cursor, return the address past the header; 0 on
exhaustion. -/
def arenaAlloc (info : ArenaInfo) (m : Mem) (size : Nat) :
    Nat × ArenaInfo × Mem :=
  let allocSize := align32 (add32 size 4)
  if add32 info.next allocSize > info.size then
    (0, info, m)
  else
    let addr := add32 info.addr info.next
    (add32 addr 4, { info with next := add32 info.next allocSize },
      put32 m addr size)

/-- Arena::size: asserts the address is inside the managed range, then
reads the header.  The failed assert (a panic) is modelled as none. -/
def arenaSize (info : ArenaInfo) (m : Mem) (addr : Nat) : Option Nat :=
  if addr ≥ add32 info.addr 4 ∧ addr < add32 info.addr info.size then
    some (get32 m (sub32 addr 4))
  else
    none

/-! ### Heap allocator (alloc.rs, HeapInfo / impl Alloc for Heap) -/

/-- HeapInfo: managed range plus the address of the head of the free
list (0 = empty). -/
structure HeapInfo where
  addr : Nat
  size : Nat
  free : Nat
  deriving DecidableEq, Repr

/-- FreeNode: in-place record at the start of a free block: size at the
node address, next-pointer 4 bytes later (repr C field order). -/
structure FreeNode where
  size : Nat
  next : Nat
  deriving DecidableEq, Repr

/-- Write a FreeNode at addr (size at addr, next at addr+4). -/
def putNode (m : Mem) (a : Nat) (n : FreeNode) : Mem :=
  put32 (put32 m a n.size) (a + 4) n.next

/-- HeapInfo::new: one free node covering the whole range. -/
def heapNew (m : Mem) (addr size : Nat) : HeapInfo × Mem :=
  (⟨addr, size, addr⟩, putNode m addr ⟨size, 0⟩)

/-- Heap::alloc scan loop: find the first free node whose size fits
allocSize, growing the last node through the external provider if the
scan reaches it.  The provider is a state-passing function
grow : sigma -> base -> requested -> granted * sigma.  Returns the
(possibly grown) memory, provider state, predecessor node address (0 if
the fit is the list head) and the fitting node address.  none models the
heap-OOM panics and fuel exhaustion. -/
def heapFindFit {σ : Type} (grow : σ → Nat → Nat → Nat × σ)
    (heapAddr allocSize : Nat) :
    Nat → Mem → σ → Nat → Nat → Option (Mem × σ × Nat × Nat)
  | 0, _, _, _, _ => none
  | fuel + 1, m, pr, prev, cur =>
    if cur = 0 then none
    else
      let nsize := get32 m cur
      let nnext := get32 m (cur + 4)
      if allocSize ≤ nsize then some (m, pr, prev, cur)
      else if nnext = 0 then
        let res := grow pr heapAddr (allocSize - nsize)
        let nsize2 := add32 nsize res.1
        if nsize2 < allocSize then none
        else some (put32 m cur nsize2, res.2, prev, cur)
      else heapFindFit grow heapAddr allocSize fuel m pr cur nnext

/-- Heap::alloc: pad, scan the free list first-fit, split the found node
when it exceeds the needed size by more than 8 bytes, unlink it (through
the predecessor or the list head), write the header, return the address
past the header. -/
def heapAlloc {σ : Type} (grow : σ → Nat → Nat → Nat × σ) (fuel : Nat)
    (info : HeapInfo) (m : Mem) (pr : σ) (size : Nat) :
    Option (Nat × HeapInfo × Mem × σ) :=
  let allocSize := align32 (add32 size 4)
  match heapFindFit grow info.addr allocSize fuel m pr 0 info.free with
  | none => none
  | some (m1, pr1, prev, cur) =>
    let nsize := get32 m1 cur
    let nm :=
      if add32 allocSize 8 < nsize then
        (add32 cur allocSize,
          putNode m1 (add32 cur allocSize)
            ⟨sub32 nsize allocSize, get32 m1 (cur + 4)⟩)
      else
        (get32 m1 (cur + 4), m1)
    let info2 := if prev = 0 then { info with free := nm.1 } else info
    let m2 := if prev = 0 then nm.2 else put32 nm.2 (prev + 4) nm.1
    some (add32 cur 4, info2, put32 m2 cur size, pr1)

/-- Heap::size: read the 4-byte header preceding addr. -/
def heapSize (m : Mem) (addr : Nat) : Nat := get32 m (sub32 addr 4)

/-- Heap::free walk: find the first free node whose address is not below
the freed block (list kept in increasing address order); returns the
predecessor (0 if none) and that node. -/
def heapFreeWalk : Nat → Mem → Nat → Nat → Nat → Option (Nat × Nat)
  | 0, _, _, _, _ => none
  | fuel + 1, m, baddr, prev, next =>
    if next < baddr then heapFreeWalk fuel m baddr next (get32 m (next + 4))
    else some (prev, next)

/-- HeapInfo::try_coalesce: repeatedly merge the node at a with its
successor while they are exactly adjacent. -/
def tryCoalesce : Nat → Mem → Nat → Option Mem
  | 0, _, _ => none
  | fuel + 1, m, a =>
    let nsize := get32 m a
    let nnext := get32 m (a + 4)
    if nnext ≠ add32 a nsize then some m
    else
      tryCoalesce fuel
        (putNode m a ⟨add32 nsize (get32 m nnext), get32 m (nnext + 4)⟩) a

/-- Heap::free: recover the block size from the header, insert a free
node in address order, then coalesce starting from the predecessor if
there is one, else from the inserted node. -/
def heapFree (fuel : Nat) (info : HeapInfo) (m : Mem) (addr : Nat) :
    Option (HeapInfo × Mem) :=
  let freeSize := add32 (heapSize m addr) 4
  let baddr := sub32 addr 4
  match heapFreeWalk fuel m baddr 0 info.free with
  | none => none
  | some (prev, next) =>
    let m1 := putNode m baddr ⟨freeSize, next⟩
    if 0 < prev then
      (tryCoalesce fuel (put32 m1 (prev + 4) baddr) prev).map
        fun m2 => (info, m2)
    else
      (tryCoalesce fuel m1 baddr).map
        fun m2 => ({ info with free := baddr }, m2)

/-- The all-zero guest memory used by concrete scenarios. -/
def zeroMem : Mem := fun _ => 0

/-- A growth provider that grants nothing (state Unit). -/
def growNone : Unit → Nat → Nat → Nat × Unit := fun u _ _ => (0, u)

/-- A growth provider that grants every request in full and logs the
calls it receives as (base, requested) pairs. -/
def growLog : List (Nat × Nat) → Nat → Nat → Nat × List (Nat × Nat) :=
  fun log a req => (req, log ++ [(a, req)])

/-! ### Scratch code buffer (shims_raw.rs, ScratchSpace) -/

/-- ScratchSpace: a bump-allocated writer over a fixed range of guest
memory.  base models the host pointer to the region; content maps the
region offsets to the bytes written so far. -/
structure ScratchSpace where
  base : Nat
  len : Nat
  ofs : Nat
  content : Nat → Nat

/-- Copy a byte list into an offset-indexed store, one byte at a time. -/
def writeList (c : Nat → Nat) (o : Nat) : List Nat → (Nat → Nat)
  | [] => c
  | b :: rest => writeList (fun x => if x = o then b % 256 else c x) (o + 1) rest

/-- ScratchSpace::write: copy buf at the cursor, advance the cursor,
return the address written to; the overflow panic is none. -/
def ScratchSpace.write (s : ScratchSpace) (buf : List Nat) :
    Option (Nat × ScratchSpace) :=
  if s.ofs + buf.length > s.len then none
  else
    some (s.base + s.ofs,
      { s with content := writeList s.content s.ofs buf,
               ofs := s.ofs + buf.length })

/-- ScratchSpace::realign: round the cursor up to an 8-byte boundary;
(ofs + 7) & !7 written arithmetically. The overflow panic is none. -/
def ScratchSpace.realign (s : ScratchSpace) : Option ScratchSpace :=
  let o := (s.ofs + 7) - (s.ofs + 7) % 8
  if o > s.len then none else some { s with ofs := o }

/-- Run a sequence of ScratchSpace::write calls. -/
def writeSeq (s : ScratchSpace) : List (List Nat) → Option ScratchSpace
  | [] => some s
  | b :: rest => (s.write b).bind fun rs => writeSeq rs.2 rest

/-! ### Call bridge (shims_raw.rs, Shims) -/

/-- Modelled from the spec: crate::shims::Shim is not under src/; per
the spec's data model, a Shim is a native function reference plus the
number of argument bytes the guest-side convention pops on return
(stack_consumed), with a name used when matching builtin exports. -/
structure Shim where
  name : String
  func : Nat
  stackConsumed : Nat
  deriving DecidableEq, Repr

/-- Shims: the call bridge state (scratch buffer plus the fields set up
at construction). -/
structure Shims where
  buf : ScratchSpace
  machinePtr : Nat
  code32Selector : Nat
  esp : Nat
  call64Addr : Nat
  tramp32Addr : Nat

/-- Little-endian bytes of a u32 value. -/
def toLeBytes4 (v : Nat) : List Nat :=
  [v % 256, v / 256 % 256, v / 65536 % 256, v / 16777216 % 256]

/-- Shims::add: emit the per-function stub - push the 64-bit native
address as two 32-bit halves (high first), lcall through the call64
descriptor, then retl with the 16-bit immediate
(stack_consumed as u16).wrapping_sub(4); realign; return the stub's
guest address (the first write's address, cast to u32). -/
def shimsAdd (sh : Shims) (shim : Shim) : Option (Nat × Shims) :=
  let target := shim.func
  let stackConsumed := (shim.stackConsumed % 65536 + 65536 - 4) % 65536
  let trampAddr := (sh.buf.base + sh.buf.ofs) % 4294967296
  (writeSeq sh.buf
      [[0x68], toLeBytes4 (target / 4294967296 % 4294967296),
       [0x68], toLeBytes4 (target % 4294967296),
       [0xff, 0x1d], toLeBytes4 sh.call64Addr,
       [0xc2], [stackConsumed % 256, stackConsumed / 256 % 256]]).bind
    fun b8 => b8.realign.map fun b9 => (trampAddr, { sh with buf := b9 })

/-- Shims::add_todo: emit the crash stub; the name parameter is the
human-readable symbol name (unused by the source, which binds it as
underscore-name). -/
def shimsAddTodo (sh : Shims) (_name : String) : Option (Nat × Shims) :=
  (sh.buf.write [0xcc, 0xb8, 0x01, 0x00, 0x00, 0x00, 0xff, 0x20]).map
    fun rb => ((sh.buf.base + sh.buf.ofs) % 4294967296, { sh with buf := rb.2 })

/-- One registration call: register(shim) or register_unimplemented(name). -/
def applyCall (sh : Shims) : Shim ⊕ String → Option Shims
  | .inl s => (shimsAdd sh s).map (fun r => r.2)
  | .inr n => (shimsAddTodo sh n).map (fun r => r.2)

/-- A sequence of registration calls against the bridge. -/
def runCalls (sh : Shims) : List (Shim ⊕ String) → Option Shims
  | [] => some sh
  | c :: rest => (applyCall sh c).bind fun sh2 => runCalls sh2 rest

/-! ### call_sync / UnimplFuture / call_x86 (shims_raw.rs) -/

/-- The state of a polled future (std::task::Poll). -/
inductive Poll (α : Type) where
  | ready (t : α)
  | pending
  deriving DecidableEq

/-- call_sync: poll once; Ready yields the value, Pending hits
unreachable (a fatal panic, modelled as none). -/
def callSync {α : Type} (poll : Unit → Poll α) : Option α :=
  match poll () with
  | .ready t => some t
  | .pending => none

/-- The deferred-result value returned by call_x86. -/
structure UnimplFuture where

/-- UnimplFuture::poll always reports Ready(()). -/
def UnimplFuture.poll (_f : UnimplFuture) : Poll Unit := .ready ()

/-- The argument-push loop of call_x86: for each value, decrement esp
by 4 and store the value there. -/
def pushArgs : Mem → Nat → List Nat → Mem × Nat
  | m, esp, [] => (m, esp)
  | m, esp, a :: rest => pushArgs (put32 m (sub32 esp 4) a) (sub32 esp 4) rest

/-- The 32-bit stack frame built by call_x86 below the caller-recorded
esp: 8 bytes reserved to stash the outer rsp (lcall_esp points at them),
8 bytes reserved for the m16:32 descriptor pushed by lcall, then the
arguments pushed iterating args in reverse.  Returns (memory after the
argument stores, lcall_esp, final esp handed to tramp32). -/
def buildFrame (m : Mem) (esp0 : Nat) (args : List Nat) : Mem × Nat × Nat :=
  let lcallEsp := sub32 esp0 8
  let esp2 := sub32 lcallEsp 8
  let pushed := pushArgs m esp2 args.reverse
  (pushed.1, lcallEsp, pushed.2)

/-- call_x86: build the temporary frame (the deterministic memory and
esp bookkeeping preceding the inline asm) and return the
already-resolved UnimplFuture. -/
def callX86 (m : Mem) (esp0 func : Nat) (args : List Nat) :
    (Mem × Nat × Nat) × UnimplFuture :=
  (buildFrame m esp0 args, {})

/-! ### DLL import resolution (kernel32/dll.rs) -/

/-- An import symbol: by name or by ordinal. -/
inductive ImportSymbol where
  | name (n : String)
  | ordinal (o : Nat)
  deriving DecidableEq, Repr

/-- Display an ImportSymbol (used to build diagnostics names). -/
def symToString : ImportSymbol → String
  | .name n => n
  | .ordinal o => toString o

/-- Association-list map with insert-shadows-lookup semantics, standing
in for the HashMaps in pe::DLL. -/
def assocGet {κ : Type} [DecidableEq κ] (l : List (κ × Nat)) (k : κ) :
    Option Nat :=
  match l with
  | [] => none
  | kv :: rest => if kv.1 = k then some kv.2 else assocGet rest k

/-- pe::DLL: the module's own export tables. -/
structure PeDLL where
  names : List (String × Nat)
  ordinals : List (Nat × Nat)
  entryPoint : Nat
  deriving DecidableEq, Repr

/-- One builtin export: a shim plus its optional ordinal
(winapi::builtin, outside src/; the fields are those resolve reads). -/
structure BuiltinExport where
  shim : Shim
  ordinal : Option Nat
  deriving DecidableEq, Repr

/-- BuiltinDLL: the list of builtin exports (fields resolve reads). -/
structure BuiltinDLL where
  exports : List BuiltinExport
  deriving DecidableEq, Repr

/-- kernel32::DLL. -/
structure DLL where
  name : String
  dll : PeDLL
  builtin : Option BuiltinDLL
  deriving DecidableEq, Repr

/-- DLL::resolve_from_pe: look the symbol up in the module's own
name/ordinal tables. -/
def DLL.resolveFromPe (d : DLL) : ImportSymbol → Option Nat
  | .name n => assocGet d.dll.names n
  | .ordinal o => assocGet d.dll.ordinals o

/-- DLL::resolve_from_builtin: if the module has a builtin, find the
export (or fall back to an unimplemented registration), call the
register callback, record the returned address in the module's own
table, and return it. -/
def DLL.resolveFromBuiltin (d : DLL) (sym : ImportSymbol)
    (register : Except String Shim → Nat) : Option (Nat × DLL) :=
  match d.builtin with
  | none => none
  | some b =>
    let export? : Option BuiltinExport :=
      match sym with
      | .name n => b.exports.find? (fun e => e.shim.name == n)
      | .ordinal o => b.exports.find? (fun e => e.ordinal == some o)
    let addr :=
      match export? with
      | some e => register (.ok e.shim)
      | none => register (.error (d.name ++ ":" ++ symToString sym))
    let d2 :=
      match sym with
      | .name n => { d with dll := { d.dll with names := (n, addr) :: d.dll.names } }
      | .ordinal o => { d with dll := { d.dll with ordinals := (o, addr) :: d.dll.ordinals } }
    some (addr, d2)

/-- DLL::resolve: PE table first, then builtin registration, else 0.
The boolean records whether the register callback was invoked. -/
def DLL.resolve (d : DLL) (sym : ImportSymbol)
    (register : Except String Shim → Nat) : Nat × DLL × Bool :=
  match d.resolveFromPe sym with
  | some a => (a, d, false)
  | none =>
    match d.resolveFromBuiltin sym register with
    | some (a, d2) => (a, d2, true)
    | none => (0, d, false)

/-! ### Observer predicates used by the claim statements -/

/-- Heap header round trip: whenever alloc succeeds with a nonzero
address, reading the header through Heap::size recovers the requested
size. -/
def heapRoundTripOK {σ : Type} (grow : σ → Nat → Nat → Nat × σ)
    (fuel : Nat) (info : HeapInfo) (m : Mem) (pr : σ) (size : Nat) : Prop :=
  ∀ a info2 m2 pr2, heapAlloc grow fuel info m pr size = some (a, info2, m2, pr2) →
    a ≠ 0 → heapSize m2 a = size

/-- The layout of a call_x86 frame with outer stack pointer esp0: the
stash slot for the outer rsp is the highest 8 bytes [esp0-8, esp0), the
m16:32 descriptor slot is [esp0-16, esp0-8) (both left unwritten by the
frame builder), and argument i sits at esp0 - 16 - 4*(n-i), so the first
argument is lowest, at the final esp. -/
def frameSpec (m : Mem) (esp0 : Nat) (args : List Nat)
    (r : Mem × Nat × Nat) : Prop :=
  r.2.1 = esp0 - 8 ∧
  r.2.2 = esp0 - 16 - 4 * args.length ∧
  (∀ x, esp0 - 16 ≤ x → r.1 x = m x) ∧
  (∀ i, i < args.length →
    get32 r.1 (esp0 - 16 - 4 * (args.length - i)) = args.getD i 0 % 4294967296)

/-- The scratch buffer only grew: every byte below the old cursor is
unchanged and the cursor did not move backwards. -/
def bufExtends (b b2 : ScratchSpace) : Prop :=
  (∀ x, x < b.ofs → b2.content x = b.content x) ∧ b.ofs ≤ b2.ofs

/-- Every successful sequence of registration calls only appends to the
scratch buffer. -/
def callsKeepCode (sh : Shims) (calls : List (Shim ⊕ String)) : Prop :=
  ∀ sh2, runCalls sh calls = some sh2 → bufExtends sh.buf sh2.buf

/-- The pop-count encoding of a stub emitted by Shims::add: the byte at
stub offset 16 is the retl opcode 0xc2 and the two bytes after it hold,
little-endian, (stack_consumed - 4) mod 2^16. -/
def popEncOK (sh : Shims) (shim : Shim) : Prop :=
  ∀ r sh2, shimsAdd sh shim = some (r, sh2) →
    sh2.buf.content (sh.buf.ofs + 16) = 0xc2 ∧
    sh2.buf.content (sh.buf.ofs + 17) +
      256 * sh2.buf.content (sh.buf.ofs + 18) =
      (shim.stackConsumed - 4) % 65536

/-! ### Concrete scenario runs and sample states -/

/-- The spec's concrete heap scenario (heap of 64 bytes at base 16):
alloc(4), alloc(4), free(first), alloc(4), alloc(100), against a
provider that grants requests in full and logs them.  Yields the four
returned addresses and the provider's call log. -/
def c4run : Option (Nat × Nat × Nat × Nat × List (Nat × Nat)) :=
  (heapAlloc growLog 20 (heapNew zeroMem 16 64).1 (heapNew zeroMem 16 64).2
      [] 4).bind fun r1 =>
  (heapAlloc growLog 20 r1.2.1 r1.2.2.1 r1.2.2.2 4).bind fun r2 =>
  (heapFree 20 r2.2.1 r2.2.2.1 r1.1).bind fun f1 =>
  (heapAlloc growLog 20 f1.1 f1.2 r2.2.2.2 4).bind fun r3 =>
  (heapAlloc growLog 20 r3.2.1 r3.2.2.1 r3.2.2.2 100).map fun r4 =>
  (r1.1, r2.1, r3.1, r4.1, r4.2.2.2)

/-- A free pattern on a heap of 64 bytes at base 16: allocate four
4-byte blocks, free the first, then free the fourth (whose free-list
predecessor is not adjacent but whose successor is).  Yields the final
list head, the head node, the node at 40 and the node at 48. -/
def c2run : Option (Nat × Nat × Nat × Nat × Nat × Nat × Nat) :=
  (heapAlloc growNone 20 (heapNew zeroMem 16 64).1 (heapNew zeroMem 16 64).2
      () 4).bind fun r1 =>
  (heapAlloc growNone 20 r1.2.1 r1.2.2.1 () 4).bind fun r2 =>
  (heapAlloc growNone 20 r2.2.1 r2.2.2.1 () 4).bind fun r3 =>
  (heapAlloc growNone 20 r3.2.1 r3.2.2.1 () 4).bind fun r4 =>
  (heapFree 20 r4.2.1 r4.2.2.1 r1.1).bind fun f1 =>
  (heapFree 20 f1.1 f1.2 r4.1).map fun f2 =>
  (f2.1.free, get32 f2.2 f2.1.free, get32 f2.2 (f2.1.free + 4),
   get32 f2.2 40, get32 f2.2 44, get32 f2.2 48, get32 f2.2 52)

/-- A sample bridge state: empty 256-byte scratch region at guest
address 4096, trampolines as laid out by Shims::new. -/
def exShims : Shims :=
  { buf := ⟨4096, 256, 0, zeroMem⟩, machinePtr := 4100,
    code32Selector := 43, esp := 0, call64Addr := 4112,
    tramp32Addr := 4128 }

/-- A sample shim: two 4-byte stack arguments. -/
def exShim : Shim := ⟨"CreateWindowA", 81985529216486895, 8⟩

/-- A sample builtin export used by the resolver scenario. -/
def exShimFoo : Shim := ⟨"Foo", 4660, 12⟩

/-- A sample builtin module exporting Foo at ordinal 3, with empty PE
tables. -/
def dllEx : DLL :=
  { name := "kernel32.dll", dll := ⟨[], [], 0⟩,
    builtin := some ⟨[⟨exShimFoo, some 3⟩]⟩ }

/-- A register callback returning a fixed stub address. -/
def regEx : Except String Shim → Nat := fun _ => 20480

/-- A second register callback returning a different address, to show
the second resolve never consults it. -/
def regEx2 : Except String Shim → Nat := fun _ => 24576

/-! ### Helper lemmas: memory accessors -/

theorem mset8_ne {m : Mem} {a v x : Nat} (h : x ≠ a) : mset8 m a v x = m x := by
  simp [mset8, h]

theorem mset8_self (m : Mem) (a v : Nat) : mset8 m a v a = v % 256 := by
  simp [mset8]

theorem put32_out {m : Mem} {a v x : Nat} (h : x < a ∨ a + 3 < x) :
    put32 m a v x = m x := by
  unfold put32
  rw [mset8_ne (by omega), mset8_ne (by omega), mset8_ne (by omega),
    mset8_ne (by omega)]

theorem put32_at0 (m : Mem) (a v : Nat) : put32 m a v a = v % 256 := by
  unfold put32
  rw [mset8_ne (by omega), mset8_ne (by omega), mset8_ne (by omega), mset8_self]

theorem put32_at1 (m : Mem) (a v : Nat) : put32 m a v (a + 1) = v / 256 % 256 := by
  unfold put32
  rw [mset8_ne (by omega), mset8_ne (by omega), mset8_self]

theorem put32_at2 (m : Mem) (a v : Nat) : put32 m a v (a + 2) = v / 65536 % 256 := by
  unfold put32
  rw [mset8_ne (by omega), mset8_self]

theorem put32_at3 (m : Mem) (a v : Nat) :
    put32 m a v (a + 3) = v / 16777216 % 256 := by
  unfold put32
  rw [mset8_self]

theorem get32_put32_same (m : Mem) (a v : Nat) :
    get32 (put32 m a v) a = v % 4294967296 := by
  unfold get32 mget8
  rw [put32_at0, put32_at1, put32_at2, put32_at3]
  omega

theorem get32_put32_out {m : Mem} {a v b : Nat} (h : b + 3 < a ∨ a + 3 < b) :
    get32 (put32 m a v) b = get32 m b := by
  unfold get32 mget8
  rw [put32_out (by omega), put32_out (by omega), put32_out (by omega),
    put32_out (by omega)]

theorem get32_lt (m : Mem) (a : Nat) : get32 m a < 4294967296 := by
  unfold get32 mget8
  omega

theorem get32_congr {f g : Mem} {b : Nat} (h : ∀ i, i < 4 → f (b + i) = g (b + i)) :
    get32 f b = get32 g b := by
  unfold get32 mget8
  have e0 := h 0 (by omega)
  have e1 := h 1 (by omega)
  have e2 := h 2 (by omega)
  have e3 := h 3 (by omega)
  simp only [Nat.add_zero] at e0
  rw [e0, e1, e2, e3]

/-! ### Helper lemmas: 32-bit arithmetic -/

theorem add32_small {a b : Nat} (h : a + b < 4294967296) : add32 a b = a + b := by
  unfold add32
  omega

theorem sub32_small {a b : Nat} (hb : b ≤ a) (ha : a < 4294967296) :
    sub32 a b = a - b := by
  unfold sub32
  omega

theorem sub32_add32_4 {a : Nat} (h : a < 4294967296) :
    sub32 (add32 a 4) 4 = a := by
  unfold sub32 add32
  omega

theorem align32_eq_pad4 {n : Nat} (h : n + 3 < 4294967296) :
    align32 n = pad4 n := by
  unfold align32 pad4
  omega

theorem pad4_le_self {n : Nat} : n ≤ pad4 n := by
  unfold pad4
  omega

theorem pad4_lower {n : Nat} : pad4 n < n + 4 := by
  unfold pad4
  omega

/-- The scan loop only ever moves to addresses read from guest memory,
so the fitting node's address stays below 2^32 when the initial one is. -/
theorem heapFindFit_cur_lt {σ : Type} (grow : σ → Nat → Nat → Nat × σ)
    (hA aS : Nat) :
    ∀ (fuel : Nat) (m : Mem) (pr : σ) (prev cur : Nat),
      cur < 4294967296 →
      ∀ q, heapFindFit grow hA aS fuel m pr prev cur = some q →
        q.2.2.2 < 4294967296 := by
  intro fuel
  induction fuel with
  | zero => intro m pr prev cur hcur q hq; exact absurd hq (by simp [heapFindFit])
  | succ n ih =>
    intro m pr prev cur hcur q hq
    unfold heapFindFit at hq
    by_cases h0 : cur = 0
    · rw [if_pos h0] at hq; exact absurd hq (by simp)
    rw [if_neg h0] at hq
    simp only at hq
    by_cases hfit : aS ≤ get32 m cur
    · rw [if_pos hfit] at hq
      cases hq
      exact hcur
    rw [if_neg hfit] at hq
    by_cases hlast : get32 m (cur + 4) = 0
    · rw [if_pos hlast] at hq
      by_cases hoom :
          add32 (get32 m cur) (grow pr hA (aS - get32 m cur)).1 < aS
      · rw [if_pos hoom] at hq; exact absurd hq (by simp)
      · rw [if_neg hoom] at hq
        cases hq
        exact hcur
    · rw [if_neg hlast] at hq
      exact ih m pr cur (get32 m (cur + 4)) (get32_lt m (cur + 4)) q hq

/-- Arena::alloc failure equation: with non-wrapping 32-bit arithmetic,
a padded size above the remaining capacity returns 0 and changes
nothing. -/
theorem arenaAlloc_fail_eq {st : ArenaInfo} {m : Mem} {s : Nat}
    (h2 : s + 7 < 4294967296) (h4 : st.next + pad4 (s + 4) < 4294967296)
    (hfail : st.size - st.next < pad4 (s + 4)) :
    arenaAlloc st m s = (0, st, m) := by
  have hs4 : add32 s 4 = s + 4 := add32_small (by omega)
  have hpa : align32 (s + 4) = pad4 (s + 4) := align32_eq_pad4 (by omega)
  have hA4 : 4 ≤ pad4 (s + 4) := le_trans (by omega) pad4_le_self
  simp only [arenaAlloc]
  rw [hs4, hpa, if_pos]
  rw [add32_small (by omega)]
  omega

/-- Arena::alloc success equation: with non-wrapping 32-bit arithmetic,
a padded size within the remaining capacity writes the header at the
cursor, bumps the cursor by the padded size and returns the address
past the header. -/
theorem arenaAlloc_success_eq {st : ArenaInfo} {m : Mem} {s : Nat}
    (h2 : s + 7 < 4294967296) (h3 : st.addr + st.size < 4294967296)
    (h4 : st.next + pad4 (s + 4) < 4294967296)
    (hfit : pad4 (s + 4) ≤ st.size - st.next) :
    arenaAlloc st m s =
      (st.addr + st.next + 4, ⟨st.addr, st.size, st.next + pad4 (s + 4)⟩,
       put32 m (st.addr + st.next) s) := by
  have hs4 : add32 s 4 = s + 4 := add32_small (by omega)
  have hpa : align32 (s + 4) = pad4 (s + 4) := align32_eq_pad4 (by omega)
  have hA4 : 4 ≤ pad4 (s + 4) := le_trans (by omega) pad4_le_self
  have hnle : st.next + pad4 (s + 4) ≤ st.size := by omega
  simp only [arenaAlloc]
  rw [hs4, hpa, if_neg (by rw [add32_small (by omega)]; omega)]
  have e1 : add32 st.addr st.next = st.addr + st.next :=
    add32_small (by omega)
  rw [e1]
  have e2 : add32 (st.addr + st.next) 4 = st.addr + st.next + 4 :=
    add32_small (by omega)
  rw [e2, add32_small (by omega)]

/-! ### Claim theorems -/

/-- C1 corrected: header round trip.  Heap: whenever alloc succeeds
with a nonzero address, size recovers the requested size, for every
fuel, state and growth provider.  Arena: the same holds provided
1 <= s, the padded size does not wrap 32 bits
(s + 7 < 2^32 and next + padded < 2^32) and the arena's range lies
below 2^32; the excluded s = 0 corner is the counterexample, where the
allocation can end flush with the arena's end and Arena::size panics on
its bounds assert. -/
theorem c1_header_roundtrip_amended :
    (∀ (st : ArenaInfo) (m : Mem) (s : Nat),
      1 ≤ s → s + 7 < 4294967296 → st.addr + st.size < 4294967296 →
      st.next + pad4 (s + 4) < 4294967296 →
      (arenaAlloc st m s).1 ≠ 0 →
      arenaSize (arenaAlloc st m s).2.1 (arenaAlloc st m s).2.2
        (arenaAlloc st m s).1 = some s) ∧
    (∀ (σ : Type) (grow : σ → Nat → Nat → Nat × σ) (fuel : Nat)
      (info : HeapInfo) (m : Mem) (pr : σ) (s : Nat),
      s < 4294967296 → info.free < 4294967296 →
      heapRoundTripOK grow fuel info m pr s) := by
  constructor
  · intro st m s h1 h2 h3 h4 hnz
    have hA8 : 8 ≤ pad4 (s + 4) := by unfold pad4; omega
    by_cases hfit : pad4 (s + 4) ≤ st.size - st.next
    · have hnle : st.next + pad4 (s + 4) ≤ st.size := by omega
      rw [arenaAlloc_success_eq h2 h3 h4 hfit]
      show arenaSize ⟨st.addr, st.size, st.next + pad4 (s + 4)⟩
        (put32 m (st.addr + st.next) s) (st.addr + st.next + 4) = some s
      unfold arenaSize
      rw [if_pos ?cond]
      case cond =>
        show st.addr + st.next + 4 ≥ add32 st.addr 4 ∧
          st.addr + st.next + 4 < add32 st.addr st.size
        rw [add32_small (by omega), add32_small (by omega)]
        omega
      rw [sub32_small (by omega) (by omega)]
      have e3 : st.addr + st.next + 4 - 4 = st.addr + st.next := by omega
      rw [e3, get32_put32_same, Nat.mod_eq_of_lt (by omega)]
    · exfalso
      apply hnz
      rw [arenaAlloc_fail_eq h2 h4 (by omega)]
  · intro σ grow fuel info m pr s hs hfree
    intro a info2 m2 pr2 h hnz
    simp only [heapAlloc] at h
    cases hf : heapFindFit grow info.addr (align32 (add32 s 4)) fuel m pr 0
        info.free with
    | none => rw [hf] at h; exact absurd h (by simp)
    | some q =>
      obtain ⟨m1, pr1, prev, cur⟩ := q
      rw [hf] at h
      simp only [Option.some.injEq, Prod.mk.injEq] at h
      obtain ⟨ha, _, hm2, _⟩ := h
      have hcur : cur < 4294967296 :=
        heapFindFit_cur_lt grow info.addr (align32 (add32 s 4)) fuel m pr 0
          info.free hfree _ hf
      subst ha hm2
      simp only [heapSize]
      rw [sub32_add32_4 hcur, get32_put32_same, Nat.mod_eq_of_lt hs]

/-- C1 witness: a 4-byte allocation on an arena at 16 of size 64 round
trips through Arena::size, and the heap round-trip property holds at
the concrete 64-byte heap at base 16. -/
theorem c1_witness :
    arenaSize (arenaAlloc ⟨16, 64, 0⟩ zeroMem 4).2.1
      (arenaAlloc ⟨16, 64, 0⟩ zeroMem 4).2.2
      (arenaAlloc ⟨16, 64, 0⟩ zeroMem 4).1 = some 4 ∧
    heapRoundTripOK growLog 20 (heapNew zeroMem 16 64).1
      (heapNew zeroMem 16 64).2 [] 4 :=
  ⟨c1_header_roundtrip_amended.1 ⟨16, 64, 0⟩ zeroMem 4 (by decide) (by decide)
      (by decide) (by decide) (by decide),
    c1_header_roundtrip_amended.2 (List (Nat × Nat)) growLog 20
      (heapNew zeroMem 16 64).1 (heapNew zeroMem 16 64).2 [] 4 (by decide)
      (by decide)⟩

/-- C6 corrected: Arena::alloc behaviour, for requested sizes whose
32-bit padding arithmetic does not wrap (s + 7 < 2^32,
next + padded < 2^32) on an arena whose range lies below 2^32: if the
padded size pad4(s + 4) exceeds the remaining capacity size - next,
alloc returns 0 with state and memory unchanged; otherwise it writes
the original size as the header at the current offset, advances the
offset by the padded size, and returns the address just past the
header.  Without the no-wrap proviso the claim fails (see the
counterexample). -/
theorem c6_arena_alloc_amended :
    ∀ (st : ArenaInfo) (m : Mem) (s : Nat),
      s + 7 < 4294967296 → st.addr + st.size < 4294967296 →
      st.next + pad4 (s + 4) < 4294967296 →
      ((st.size - st.next < pad4 (s + 4) → arenaAlloc st m s = (0, st, m)) ∧
       (pad4 (s + 4) ≤ st.size - st.next →
          arenaAlloc st m s =
            (st.addr + st.next + 4, ⟨st.addr, st.size, st.next + pad4 (s + 4)⟩,
             put32 m (st.addr + st.next) s))) := by
  intro st m s h2 h3 h4
  exact ⟨fun hfail => arenaAlloc_fail_eq h2 h4 hfail,
    fun hfit => arenaAlloc_success_eq h2 h3 h4 hfit⟩

/-- C6 witness: alloc(5) on an arena at 16 of size 32 writes the header
5 at offset 0, advances the cursor to the padded size 12 and returns
20. -/
theorem c6_witness :
    arenaAlloc ⟨16, 32, 0⟩ zeroMem 5 =
      (20, ⟨16, 32, 12⟩, put32 zeroMem 16 5) :=
  (c6_arena_alloc_amended ⟨16, 32, 0⟩ zeroMem 5 (by decide) (by decide)
      (by decide)).2 (by decide)


/-- C2: counter-evidence from the code.  On a 64-byte heap at base 16,
allocate four 4-byte blocks (payloads 20, 28, 36, 44), free the first,
then free the fourth.  The freed fourth block (node 40) has a
non-adjacent predecessor (node 16, 16 + 8 = 24 < 40), so
Heap::free runs try_coalesce from the predecessor, which stops at once;
the final free list is 16 {size 8, next 40} -> 40 {size 8, next 48} ->
48 {size 32, next 0}, where 40 + 8 = 48: two consecutive free nodes
are left mergeable, contradicting the claimed invariant. -/
theorem c2_free_leaves_mergeable_nodes :
    c2run = some (16, 8, 40, 8, 48, 32, 0) ∧ add32 40 8 = 48 :=
  ⟨rfl, rfl⟩

/-- C4: the spec's concrete scenario holds: on a fresh 64-byte heap the
second alloc(4) after freeing the first allocation returns the first
allocation's address 20 again (first-fit reuse), and the subsequent
alloc(100) asks the growth provider for exactly 56 bytes, which is at
least the padded size of 100 (104) minus the remaining free space (48,
the size of the single remaining free node). -/
theorem c4_first_fit_reuse_and_growth :
    c4run = some (20, 28, 20, 36, [(16, 56)]) ∧
    align32 (add32 100 4) - 48 ≤ 56 :=
  ⟨rfl, by decide⟩

/-- C7: the deferred-result value returned by call_x86 is already
resolved when the call returns: call_sync polling the returned
UnimplFuture yields its value, while polling any Pending result fails
fatally (none) instead of returning a value. -/
theorem c7_result_always_resolved :
    (∀ (m : Mem) (esp0 func : Nat) (args : List Nat),
      callSync (fun _ => (callX86 m esp0 func args).2.poll) = some ()) ∧
    (∀ (α : Type), callSync (fun _ => (Poll.pending : Poll α)) = none) :=
  ⟨fun _ _ _ _ => rfl, fun _ => rfl⟩

/-- C9 counterexample: register_unimplemented does not record the name
anywhere: calling add_todo on the same bridge state with two different
names produces identical results, so no component of the post-state
depends on (or records) the name. -/
theorem c9_name_not_recorded :
    shimsAddTodo exShims "DirectDrawCreate" =
      shimsAddTodo exShims "CreateFontA" :=
  rfl

/-- C9 amended: the name passed to register_unimplemented is accepted
but discarded by this backend (the parameter is unused): the emitted
stub and resulting bridge state are independent of the name. -/
theorem c9_add_todo_ignores_name :
    ∀ (sh : Shims) (n1 n2 : String), shimsAddTodo sh n1 = shimsAddTodo sh n2 :=
  fun _ _ _ => rfl

/-- C1 counterexample: on an arena at address 16 of size 4, alloc(0)
succeeds (padded size 4 fits exactly) and returns the nonzero address
20, but the allocation ends flush with the arena's end, so
Arena::size(20) fails its bounds assert (addr < arena.addr + arena.size)
and panics (none) instead of returning 0. -/
theorem c1_arena_size_assert_fails :
    (arenaAlloc ⟨16, 4, 0⟩ zeroMem 0).1 = 20 ∧
    arenaSize (arenaAlloc ⟨16, 4, 0⟩ zeroMem 0).2.1
      (arenaAlloc ⟨16, 4, 0⟩ zeroMem 0).2.2 20 = none :=
  ⟨rfl, rfl⟩

/-- C3 counterexample: call_x86 with outer esp 100 and args [1, 2] does
not place the arguments at the top of the frame as the claim's
high-to-low order (args, then descriptor, then rsp stash) would require:
the claim puts the two argument words at [96, 100) and [92, 96), but
those bytes stay zero (they are the reserved rsp-stash and descriptor
space); the arguments actually land at 80 (arg 1 = 2) and 76
(arg 0 = 1), at the bottom of the frame, with lcall_esp = 92 pointing
into the top 8 bytes and the final esp = 76. -/
theorem c3_args_not_at_frame_top :
    ¬ (get32 (callX86 zeroMem 100 77 [1, 2]).1.1 96 = 2 ∧
        get32 (callX86 zeroMem 100 77 [1, 2]).1.1 92 = 1) ∧
    ¬ (get32 (callX86 zeroMem 100 77 [1, 2]).1.1 96 = 1 ∧
        get32 (callX86 zeroMem 100 77 [1, 2]).1.1 92 = 2) ∧
    get32 (callX86 zeroMem 100 77 [1, 2]).1.1 80 = 2 ∧
    get32 (callX86 zeroMem 100 77 [1, 2]).1.1 76 = 1 ∧
    (callX86 zeroMem 100 77 [1, 2]).1.2.1 = 92 ∧
    (callX86 zeroMem 100 77 [1, 2]).1.2.2 = 76 := by
  refine ⟨by decide, by decide, rfl, rfl, rfl, rfl⟩

/-- C6 counterexample: for the requested size 2^32 - 1 on an arena of
size 16, the ideal padded size (2^32 + 4, far above the remaining
capacity 16) should force a 0 return with the cursor unchanged, but the
32-bit computation wraps (align32(size + 4) = 4), so alloc succeeds,
returns 20 and advances the cursor to 4. -/
theorem c6_wrap_defeats_capacity_check :
    16 - 0 < pad4 (4294967295 + 4) ∧
    (arenaAlloc ⟨16, 16, 0⟩ zeroMem 4294967295).1 = 20 ∧
    (arenaAlloc ⟨16, 16, 0⟩ zeroMem 4294967295).2.1.next = 4 :=
  ⟨by decide, rfl, rfl⟩

/-- Indexing a reversed list with a default. -/
theorem getD_rev (l : List Nat) (j : Nat) (h : j < l.length) :
    l.reverse.getD j 0 = l.getD (l.length - 1 - j) 0 := by
  rw [List.getD_eq_getElem?_getD, List.getD_eq_getElem?_getD,
    List.getElem?_reverse h]

/-- What the call_x86 argument loop does: it moves esp down by 4 per
value, stores value number j (0-based, in push order) at esp - 4*(j+1),
and touches nothing at or above the starting esp nor below the final
esp. -/
theorem pushArgs_spec (l : List Nat) :
    ∀ (m : Mem) (esp : Nat), 4 * l.length ≤ esp → esp < 4294967296 →
      (pushArgs m esp l).2 = esp - 4 * l.length ∧
      (∀ x, x < esp - 4 * l.length ∨ esp ≤ x → (pushArgs m esp l).1 x = m x) ∧
      (∀ j, j < l.length →
        get32 (pushArgs m esp l).1 (esp - 4 * (j + 1)) =
          l.getD j 0 % 4294967296) := by
  induction l with
  | nil =>
    intro m esp h1 h2
    exact ⟨by simp [pushArgs], fun x _ => rfl, fun j hj => absurd hj (by simp)⟩
  | cons a rest ih =>
    intro m esp h1 h2
    simp only [List.length_cons] at h1
    have h4esp : 4 ≤ esp := by omega
    have hsub : sub32 esp 4 = esp - 4 := sub32_small (by omega) h2
    simp only [pushArgs, hsub, List.length_cons]
    obtain ⟨ihA, ihB, ihC⟩ := ih (put32 m (esp - 4) a) (esp - 4)
      (by omega) (by omega)
    refine ⟨?_, ?_, ?_⟩
    · rw [ihA]; omega
    · intro x hx
      rw [ihB x (by omega)]
      exact put32_out (by omega)
    · intro j hj
      cases j with
      | zero =>
        have hpos : esp - 4 * (0 + 1) = esp - 4 := by omega
        rw [hpos]
        have hpres : ∀ i, i < 4 →
            (pushArgs (put32 m (esp - 4) a) (esp - 4) rest).1 (esp - 4 + i) =
              put32 m (esp - 4) a (esp - 4 + i) :=
          fun i _ => ihB (esp - 4 + i) (by omega)
        rw [get32_congr hpres, get32_put32_same]
        simp
      | succ j2 =>
        have hj2 : j2 < rest.length := by omega
        have hpos : esp - 4 * (j2 + 1 + 1) = esp - 4 - 4 * (j2 + 1) := by omega
        rw [hpos, ihC j2 hj2]
        simp

/-- C3 corrected: the layout of the call_x86 frame, from high address
to low address, is: 8 reserved bytes that stash the caller's outer
stack pointer (lcall_esp points at them), 8 reserved bytes for the
cross-mode m16:32 return descriptor, and then the arguments with the
first argument lowest (at the final esp handed to the guest), argument
i at esp0 - 16 - 4*(n - i); the reserved 16 bytes at the top are left
unwritten by the frame builder.  The claim's order (arguments on top,
rsp stash at the bottom) is the reverse of what the code builds. -/
theorem c3_frame_layout_amended :
    ∀ (m : Mem) (esp0 func : Nat) (args : List Nat),
      16 + 4 * args.length ≤ esp0 → esp0 < 4294967296 →
      frameSpec m esp0 args (callX86 m esp0 func args).1 := by
  intro m esp0 func args h1 h2
  have hl8 : sub32 esp0 8 = esp0 - 8 := sub32_small (by omega) h2
  have hl16 : sub32 (esp0 - 8) 8 = esp0 - 16 := sub32_small (by omega) (by omega)
  obtain ⟨pA, pB, pC⟩ := pushArgs_spec args.reverse m (esp0 - 16)
    (by simp only [List.length_reverse]; omega) (by omega)
  refine ⟨?_, ?_, ?_, ?_⟩
  · simp only [callX86, buildFrame, hl8]
  · simp only [callX86, buildFrame, hl8, hl16]
    rw [pA, List.length_reverse]
  · intro x hx
    simp only [callX86, buildFrame, hl8, hl16]
    exact pB x (Or.inr hx)
  · intro i hi
    simp only [callX86, buildFrame, hl8, hl16]
    have hpos : esp0 - 16 - 4 * (args.length - i) =
        esp0 - 16 - 4 * (args.length - 1 - i + 1) := by omega
    rw [hpos, pC (args.length - 1 - i)
      (by simp only [List.length_reverse]; omega)]
    rw [getD_rev args (args.length - 1 - i) (by omega)]
    have hidx : args.length - 1 - (args.length - 1 - i) = i := by omega
    rw [hidx]

/-- C3 witness: the frame layout at the concrete input esp0 = 100,
args = [1, 2]. -/
theorem c3_witness :
    frameSpec zeroMem 100 [1, 2] (callX86 zeroMem 100 77 [1, 2]).1 :=
  c3_frame_layout_amended zeroMem 100 77 [1, 2] (by decide) (by decide)

/-- writeList does not touch offsets below the write position. -/
theorem writeList_lt (buf : List Nat) :
    ∀ (c : Nat → Nat) (o x : Nat), x < o → writeList c o buf x = c x := by
  induction buf with
  | nil => intro c o x _; rfl
  | cons b rest ih =>
    intro c o x hx
    simp only [writeList]
    rw [ih _ (o + 1) x (by omega)]
    simp only [if_neg (by omega : ¬ x = o)]

/-- writeList writes byte j of the buffer at offset o + j. -/
theorem writeList_at (buf : List Nat) :
    ∀ (c : Nat → Nat) (o j : Nat), j < buf.length →
      writeList c o buf (o + j) = buf.getD j 0 % 256 := by
  induction buf with
  | nil => intro c o j hj; exact absurd hj (by simp)
  | cons b rest ih =>
    intro c o j hj
    cases j with
    | zero =>
      simp only [writeList, Nat.add_zero, List.getD_cons_zero]
      rw [writeList_lt rest _ (o + 1) o (by omega)]
      simp
    | succ j2 =>
      simp only [writeList, List.getD_cons_succ]
      have he : o + (j2 + 1) = o + 1 + j2 := by omega
      rw [he, ih _ (o + 1) j2 (by simpa using hj)]

/-- writeList over an append splits into two sequential writes. -/
theorem writeList_append (b1 : List Nat) :
    ∀ (b2 : List Nat) (c : Nat → Nat) (o : Nat),
      writeList c o (b1 ++ b2) = writeList (writeList c o b1) (o + b1.length) b2 := by
  induction b1 with
  | nil => intro b2 c o; simp [writeList]
  | cons b rest ih =>
    intro b2 c o
    rw [List.cons_append]
    simp only [writeList, List.length_cons]
    rw [ih]
    have he : o + (rest.length + 1) = o + 1 + rest.length := by omega
    rw [he]

/-- Unpacking a successful ScratchSpace::write. -/
theorem write_some {s : ScratchSpace} {buf : List Nat} {r : Nat}
    {s2 : ScratchSpace} (h : s.write buf = some (r, s2)) :
    r = s.base + s.ofs ∧ s2.base = s.base ∧ s2.len = s.len ∧
    s2.ofs = s.ofs + buf.length ∧
    s2.content = writeList s.content s.ofs buf ∧ s2.ofs ≤ s.len := by
  unfold ScratchSpace.write at h
  by_cases hc : s.ofs + buf.length > s.len
  · rw [if_pos hc] at h; exact absurd h (by simp)
  · rw [if_neg hc] at h
    simp only [Option.some.injEq, Prod.mk.injEq] at h
    obtain ⟨hr, hs⟩ := h
    subst hr hs
    exact ⟨rfl, rfl, rfl, rfl, rfl,
      show s.ofs + buf.length ≤ s.len by omega⟩

/-- Unpacking a successful ScratchSpace::realign. -/
theorem realign_some {s s2 : ScratchSpace} (h : s.realign = some s2) :
    s2.base = s.base ∧ s2.len = s.len ∧ s2.content = s.content ∧
    s.ofs ≤ s2.ofs ∧ s2.ofs ≤ s.len := by
  unfold ScratchSpace.realign at h
  by_cases hc : (s.ofs + 7) - (s.ofs + 7) % 8 > s.len
  · rw [if_pos hc] at h; exact absurd h (by simp)
  · rw [if_neg hc] at h
    simp only [Option.some.injEq] at h
    subst h
    exact ⟨rfl, rfl, rfl,
      show s.ofs ≤ s.ofs + 7 - (s.ofs + 7) % 8 by omega,
      show s.ofs + 7 - (s.ofs + 7) % 8 ≤ s.len by omega⟩

/-- Unpacking a successful write sequence: the cursor advances by the
total length and the content is the one sequential write of the joined
buffers. -/
theorem writeSeq_some (chunks : List (List Nat)) :
    ∀ (s s2 : ScratchSpace), writeSeq s chunks = some s2 →
      s2.base = s.base ∧ s2.len = s.len ∧
      s2.ofs = s.ofs + chunks.flatten.length ∧
      s2.content = writeList s.content s.ofs chunks.flatten ∧ s.ofs ≤ s2.ofs := by
  induction chunks with
  | nil =>
    intro s s2 h
    simp only [writeSeq, Option.some.injEq] at h
    subst h
    refine ⟨rfl, rfl, by simp, by simp [writeList], by omega⟩
  | cons b rest ih =>
    intro s s2 h
    simp only [writeSeq] at h
    rw [Option.bind_eq_some] at h
    obtain ⟨rs, hw, hrest⟩ := h
    obtain ⟨r1, s1⟩ := rs
    obtain ⟨_, hb, hl, ho, hc, _⟩ := write_some hw
    obtain ⟨ihb, ihl, iho, ihc, ihle⟩ := ih s1 s2 hrest
    refine ⟨by rw [ihb, hb], by rw [ihl, hl], ?_, ?_, ?_⟩
    · rw [iho, ho, List.flatten_cons, List.length_append]; omega
    · rw [ihc, hc, ho, List.flatten_cons, writeList_append]
    · omega

/-- bufExtends composes. -/
theorem bufExtends_trans {a b c : ScratchSpace} (h1 : bufExtends a b)
    (h2 : bufExtends b c) : bufExtends a c := by
  obtain ⟨p1, q1⟩ := h1
  obtain ⟨p2, q2⟩ := h2
  exact ⟨fun x hx => by rw [p2 x (lt_of_lt_of_le hx q1), p1 x hx],
    le_trans q1 q2⟩

/-- Shims::add only appends to the scratch buffer. -/
theorem shimsAdd_extends {sh : Shims} {shim : Shim} {r : Nat} {sh2 : Shims}
    (h : shimsAdd sh shim = some (r, sh2)) : bufExtends sh.buf sh2.buf := by
  simp only [shimsAdd] at h
  rw [Option.bind_eq_some] at h
  obtain ⟨b8, hw, h⟩ := h
  rw [Option.map_eq_some'] at h
  obtain ⟨b9, hr, h⟩ := h
  simp only [Prod.mk.injEq] at h
  obtain ⟨_, hsh2⟩ := h
  subst hsh2
  obtain ⟨_, _, ho8, hc8, hle8⟩ := writeSeq_some _ _ _ hw
  obtain ⟨_, _, hc9, hle9, _⟩ := realign_some hr
  exact ⟨fun x hx => by rw [hc9, hc8]; exact writeList_lt _ _ _ _ hx,
    show sh.buf.ofs ≤ b9.ofs by omega⟩

/-- Shims::add_todo only appends to the scratch buffer. -/
theorem shimsAddTodo_extends {sh : Shims} {name : String} {r : Nat}
    {sh2 : Shims} (h : shimsAddTodo sh name = some (r, sh2)) :
    bufExtends sh.buf sh2.buf := by
  simp only [shimsAddTodo] at h
  rw [Option.map_eq_some'] at h
  obtain ⟨rb, hw, h⟩ := h
  obtain ⟨r1, s1⟩ := rb
  simp only [Prod.mk.injEq] at h
  obtain ⟨_, hsh2⟩ := h
  subst hsh2
  obtain ⟨_, _, _, ho, hc, _⟩ := write_some hw
  exact ⟨fun x hx => by rw [hc]; exact writeList_lt _ _ _ _ hx,
    show sh.buf.ofs ≤ s1.ofs by omega⟩

/-- Either registration call only appends to the scratch buffer. -/
theorem applyCall_extends {sh : Shims} {c : Shim ⊕ String} {sh2 : Shims}
    (h : applyCall sh c = some sh2) : bufExtends sh.buf sh2.buf := by
  cases c with
  | inl s =>
    simp only [applyCall] at h
    rw [Option.map_eq_some'] at h
    obtain ⟨⟨r, sh3⟩, hadd, h⟩ := h
    subst h
    exact shimsAdd_extends hadd
  | inr n =>
    simp only [applyCall] at h
    rw [Option.map_eq_some'] at h
    obtain ⟨⟨r, sh3⟩, hadd, h⟩ := h
    subst h
    exact shimsAddTodo_extends hadd

/-- C8: every sequence of register / register_unimplemented calls only
appends to the scratch buffer: each call writes only at offsets at or
beyond the cursor it starts with and moves the cursor monotonically, so
every byte of previously emitted code is unchanged and previously
returned stub addresses keep referring to the same bytes. -/
theorem c8_registration_appends_only :
    ∀ (sh : Shims) (calls : List (Shim ⊕ String)), callsKeepCode sh calls := by
  intro sh calls
  induction calls generalizing sh with
  | nil =>
    intro sh2 h
    simp only [runCalls, Option.some.injEq] at h
    subst h
    exact ⟨fun _ _ => rfl, le_refl _⟩
  | cons c rest ih =>
    intro sh2 h
    simp only [runCalls] at h
    rw [Option.bind_eq_some] at h
    obtain ⟨shMid, hap, hrest⟩ := h
    exact bufExtends_trans (applyCall_extends hap) (ih shMid sh2 hrest)

/-- A sample registration sequence does succeed (the C8 property is not
vacuous): one register then one register_unimplemented on the sample
bridge state. -/
theorem runCalls_sample_succeeds :
    (runCalls exShims [Sum.inl exShim, Sum.inr "ShellExecuteA"]).isSome = true :=
  rfl

/-- C5: the 16-bit immediate of the emitted retl instruction.  For
every bridge state and shim with 4 <= stack_consumed <= 65539, a
successful Shims::add leaves the retl opcode 0xc2 at stub offset 16 and
encodes, in the two bytes after it (little-endian), exactly
(stack_consumed - 4) mod 2^16 - i.e. stack_consumed truncated to 16
bits, minus 4 with 16-bit wraparound. -/
theorem c5_pop_count_encoding :
    ∀ (sh : Shims) (shim : Shim), 4 ≤ shim.stackConsumed →
      shim.stackConsumed ≤ 65539 → popEncOK sh shim := by
  intro sh shim h4 hub
  intro r sh2 h
  simp only [shimsAdd] at h
  rw [Option.bind_eq_some] at h
  obtain ⟨b8, hw, h⟩ := h
  rw [Option.map_eq_some'] at h
  obtain ⟨b9, hr, h⟩ := h
  simp only [Prod.mk.injEq] at h
  obtain ⟨_, hsh2⟩ := h
  subst hsh2
  obtain ⟨_, _, _, hc8, _⟩ := writeSeq_some _ _ _ hw
  obtain ⟨_, _, hc9, _, _⟩ := realign_some hr
  refine ⟨?_, ?_⟩
  · show b9.content (sh.buf.ofs + 16) = 0xc2
    rw [hc9, hc8, writeList_at]
    · rfl
    · show (16 : Nat) < 19
      norm_num
  · show b9.content (sh.buf.ofs + 17) + 256 * b9.content (sh.buf.ofs + 18) =
      (shim.stackConsumed - 4) % 65536
    rw [hc9, hc8, writeList_at, writeList_at]
    · show (shim.stackConsumed % 65536 + 65536 - 4) % 65536 % 256 % 256 +
        256 * ((shim.stackConsumed % 65536 + 65536 - 4) % 65536 / 256 % 256
          % 256) = (shim.stackConsumed - 4) % 65536
      omega
    · show (18 : Nat) < 19
      norm_num
    · show (17 : Nat) < 19
      norm_num

/-- C5 witness: the encoding property at the sample bridge state and
the sample shim with stack_consumed = 8. -/
theorem c5_witness : popEncOK exShims exShim :=
  c5_pop_count_encoding exShims exShim (by decide) (by decide)

/-- C10: resolving the same import symbol of a module twice is
idempotent.  If the module has a builtin and the symbol is not yet in
its own PE table, the first resolve registers through the callback and
stores the returned address in the module's name/ordinal table; the
second resolve of the same symbol then finds the address in the table
and returns the identical address with the state unchanged and without
invoking the (fresh) registration callback. -/
theorem c10_resolve_idempotent :
    ∀ (d : DLL) (sym : ImportSymbol) (reg reg2 : Except String Shim → Nat)
      (b : BuiltinDLL), d.builtin = some b → d.resolveFromPe sym = none →
      (d.resolve sym reg).2.1.resolve sym reg2 =
        ((d.resolve sym reg).1, (d.resolve sym reg).2.1, false) ∧
      (d.resolve sym reg).2.1.resolveFromPe sym =
        some (d.resolve sym reg).1 := by
  intro d sym reg reg2 b hb hpe
  cases hrb : d.resolveFromBuiltin sym reg with
  | none =>
    exfalso
    simp only [DLL.resolveFromBuiltin, hb] at hrb
    exact Option.noConfusion hrb
  | some p =>
    obtain ⟨a, d2⟩ := p
    have e1 : d.resolve sym reg = (a, d2, true) := by
      simp only [DLL.resolve, hpe, hrb]
    rw [e1]
    have hpe2 : d2.resolveFromPe sym = some a := by
      simp only [DLL.resolveFromBuiltin, hb] at hrb
      cases sym with
      | name n =>
        simp only [Option.some.injEq, Prod.mk.injEq] at hrb
        obtain ⟨h1, h2⟩ := hrb
        subst h2
        subst h1
        simp [DLL.resolveFromPe, assocGet]
      | ordinal o =>
        simp only [Option.some.injEq, Prod.mk.injEq] at hrb
        obtain ⟨h1, h2⟩ := hrb
        subst h2
        subst h1
        simp [DLL.resolveFromPe, assocGet]
    constructor
    · show d2.resolve sym reg2 = (a, d2, false)
      simp only [DLL.resolve, hpe2]
    · exact hpe2

/-- C10 witness: resolving the name Foo twice on the sample module:
the second resolve returns the address the first stored, leaves the
module unchanged and reports the callback uninvoked, and Foo is in the
module's own table afterwards. -/
theorem c10_witness :
    (dllEx.resolve (.name "Foo") regEx).2.1.resolve (.name "Foo") regEx2 =
      ((dllEx.resolve (.name "Foo") regEx).1,
       (dllEx.resolve (.name "Foo") regEx).2.1, false) ∧
    (dllEx.resolve (.name "Foo") regEx).2.1.resolveFromPe (.name "Foo") =
      some (dllEx.resolve (.name "Foo") regEx).1 :=
  c10_resolve_idempotent dllEx (.name "Foo") regEx regEx2
    ⟨[⟨exShimFoo, some 3⟩]⟩ rfl rfl

end Retrowin32

